import Mathlib

/-!
A verification development for the ferriby repository: a shallow embedding of
its liveness classifier, timestamp parsers, activity fetchers, polling
scheduler timing, and application controller, together with theorems about
the behaviour each part exhibits.

Timestamps (chrono `DateTime<Utc>`) are modelled as a pair of epoch seconds
and a sub-second nanosecond component; durations (chrono `TimeDelta`) as
total nanoseconds.
-/

/-- Model of chrono `DateTime<Utc>`: epoch seconds plus sub-second
nanoseconds.  Every value the program constructs goes through
`DateTime::from_timestamp(secs, 0)`, so its `nsecs` is `0`. -/
structure DT where
  secs : Int
  nsecs : Nat
deriving DecidableEq, Repr

/-- chrono's `Ord` on `DateTime` compares the stored fields
lexicographically. -/
def DT.lt (a b : DT) : Prop :=
  a.secs < b.secs ∨ (a.secs = b.secs ∧ a.nsecs < b.nsecs)

instance (a b : DT) : Decidable (DT.lt a b) :=
  inferInstanceAs (Decidable (_ ∨ _))

/-- Non-strict counterpart of `DT.lt`. -/
def DT.le (a b : DT) : Prop :=
  a.secs < b.secs ∨ (a.secs = b.secs ∧ a.nsecs ≤ b.nsecs)

instance (a b : DT) : Decidable (DT.le a b) :=
  inferInstanceAs (Decidable (_ ∨ _))

/-- Total nanoseconds of a `DT` since the epoch. -/
def dtNanos (d : DT) : Int :=
  d.secs * 1000000000 + d.nsecs

/-- Model of chrono `TimeDelta` as total nanoseconds, and of the
subtraction `now - last` between two `DateTime<Utc>` values (exact for the
non-leap-second instants this program constructs, whose `nsecs < 10^9`). -/
def chronoSub (a b : DT) : Int :=
  dtNanos a - dtNanos b

/-- chrono `TimeDelta::hours(n)` as total nanoseconds. -/
def TimeDelta.hours (n : Int) : Int :=
  n * 3600 * 1000000000

/-- Rust `Iterator::max` over a list of `DateTime` values: `None` on an
empty list, otherwise the maximum, the last one winning ties. -/
def listMax (l : List DT) : Option DT :=
  l.foldl
    (fun acc x =>
      match acc with
      | none => some x
      | some a => some (if DT.lt x a then a else x))
    none

/-- The four liveness states of `src/ferriby/src/app.rs`. -/
inductive Happiness where
  | Undecided
  | Sad
  | Okayish
  | Buzzing
deriving DecidableEq, Repr

/-- `Happiness::from_last_activity` from `src/ferriby/src/app.rs`, with the
impure `chrono::Utc::now()` supplied as the explicit argument `now` and the
`panic!("commits from the future")` surfacing as `Except.error`. -/
def Happiness.from_last_activity (now : DT) (last_activity : Option DT) :
    Except String Happiness :=
  match last_activity with
  | some last =>
    if DT.lt now last then
      .error "commits from the future"
    else
      let diff := chronoSub now last
      if diff < TimeDelta.hours 24 then .ok .Buzzing
      else if diff < TimeDelta.hours (24 * 7) then .ok .Okayish
      else .ok .Sad
  | none => .ok .Undecided

theorem DT.not_lt_of_le {a b : DT} (h : DT.le a b) : ¬ DT.lt b a := by
  rcases h with h | ⟨h1, h2⟩ <;> rintro (h' | ⟨h1', h2'⟩) <;> omega

theorem from_last_activity_some (now last : DT) :
    Happiness.from_last_activity now (some last) =
      if DT.lt now last then .error "commits from the future"
      else if chronoSub now last < TimeDelta.hours 24 then .ok .Buzzing
      else if chronoSub now last < TimeDelta.hours (24 * 7) then .ok .Okayish
      else .ok .Sad := rfl

theorem from_last_activity_none (now : DT) :
    Happiness.from_last_activity now none = .ok .Undecided := rfl

/-- C1: for every timestamp `now` and optional last activity: `None` yields
`Undecided`; otherwise, with `delta = now - last` and `last ≤ now`, the
classifier returns `Buzzing` iff `delta < 24h`, `Okayish` iff
`24h ≤ delta < 168h`, and `Sad` iff `delta ≥ 168h`, both threshold
comparisons strict-less-than. -/
theorem c1_classifier_bands (now last : DT) (h : DT.le last now) :
    (Happiness.from_last_activity now (some last) = .ok .Buzzing ↔
      chronoSub now last < TimeDelta.hours 24) ∧
    (Happiness.from_last_activity now (some last) = .ok .Okayish ↔
      TimeDelta.hours 24 ≤ chronoSub now last ∧
        chronoSub now last < TimeDelta.hours 168) ∧
    (Happiness.from_last_activity now (some last) = .ok .Sad ↔
      TimeDelta.hours 168 ≤ chronoSub now last) ∧
    Happiness.from_last_activity now none = .ok .Undecided := by
  have hnl : ¬ DT.lt now last := DT.not_lt_of_le h
  rw [from_last_activity_some, from_last_activity_none, if_neg hnl]
  by_cases h1 : chronoSub now last < TimeDelta.hours 24
  · rw [if_pos h1]
    simp only [TimeDelta.hours] at h1 ⊢
    refine ⟨?_, ?_, ?_⟩ <;> simp <;> omega
  · rw [if_neg h1]
    by_cases h2 : chronoSub now last < TimeDelta.hours (24 * 7)
    · rw [if_pos h2]
      simp only [TimeDelta.hours] at h1 h2 ⊢
      refine ⟨?_, ?_, ?_⟩ <;> simp <;> omega
    · rw [if_neg h2]
      simp only [TimeDelta.hours] at h1 h2 ⊢
      refine ⟨?_, ?_, ?_⟩ <;> simp <;> omega

theorem c1_classifier_bands_witness :
    DT.le ⟨0, 0⟩ ⟨1000, 0⟩ ∧
      (Happiness.from_last_activity ⟨1000, 0⟩ (some ⟨0, 0⟩) = .ok .Buzzing ↔
        chronoSub ⟨1000, 0⟩ ⟨0, 0⟩ < TimeDelta.hours 24) :=
  ⟨by decide, (c1_classifier_bands ⟨1000, 0⟩ ⟨0, 0⟩ (by decide)).1⟩

/-- C6: for every `now` and every last-activity timestamp strictly after
`now`, the classifier fails fatally with the "commits from the future"
panic, never an ordinary `Happiness` result. -/
theorem c6_future_activity_fatal (now last : DT) (h : DT.lt now last) :
    Happiness.from_last_activity now (some last) =
      .error "commits from the future" := by
  rw [from_last_activity_some, if_pos h]

theorem c6_future_activity_fatal_witness :
    DT.lt ⟨0, 0⟩ ⟨1, 0⟩ ∧
      Happiness.from_last_activity ⟨0, 0⟩ (some ⟨1, 0⟩) =
        .error "commits from the future" :=
  ⟨by decide, c6_future_activity_fatal ⟨0, 0⟩ ⟨1, 0⟩ (by decide)⟩

/-! ### Calendar arithmetic (chrono's proleptic Gregorian calendar) -/

/-- Proleptic-Gregorian leap year, as in chrono. -/
def isLeapYear (y : Int) : Bool :=
  y % 4 == 0 && (y % 100 != 0 || y % 400 == 0)

/-- Number of days of month `m` (1-based) in year `y`. -/
def daysInMonth (y : Int) (m : Nat) : Nat :=
  if m = 2 then (if isLeapYear y then 29 else 28)
  else if m = 4 ∨ m = 6 ∨ m = 9 ∨ m = 11 then 30
  else 31

/-- Days from 1970-01-01 to the civil date `y-m-d` (the standard
days-from-civil computation; matches chrono's day counting for every valid
proleptic-Gregorian date). -/
def daysFromCivil (y : Int) (m d : Nat) : Int :=
  let yAdj : Int := if m ≤ 2 then y - 1 else y
  let era : Int := Int.fdiv yAdj 400
  let yoe : Nat := (yAdj - era * 400).toNat
  let mp : Nat := if 2 < m then m - 3 else m + 9
  let doy : Nat := (153 * mp + 2) / 5 + (d - 1)
  let doe : Nat := yoe * 365 + yoe / 4 - yoe / 100 + doy
  era * 146097 + (doe : Int) - 719468

/-- Epoch seconds of the civil instant `y-m-d h:mi:s` (UTC). -/
def civilSecs (y : Int) (mo d h mi s : Nat) : Int :=
  daysFromCivil y mo d * 86400 + (h * 3600 + mi * 60 + s : Nat)

/-- Model of chrono `NaiveDateTime` as produced by parsing: epoch seconds of
the naive (un-zoned) datetime plus sub-second nanoseconds.  A parsed leap
second `:60` is stored, as in chrono, as second 59 with an extra `10^9`
nanoseconds. -/
structure NaiveDT where
  secs : Int
  nsecs : Nat
deriving DecidableEq, Repr

/-- chrono's datetime validation and construction from parsed fields
(`Parsed::to_naive_datetime_with_offset` semantics): months 1-12, a valid
day of month, hours to 23, minutes to 59, seconds to 60 (leap). -/
def mkNaiveDT (y : Int) (mo d h mi s ns : Nat) : Option NaiveDT :=
  if 1 ≤ mo ∧ mo ≤ 12 ∧ 1 ≤ d ∧ d ≤ daysInMonth y mo ∧
      h ≤ 23 ∧ mi ≤ 59 ∧ s ≤ 60 then
    some ⟨civilSecs y mo d h mi (min s 59),
      (if s = 60 then 1000000000 else 0) + ns⟩
  else none

/-- chrono `NaiveDateTime::timestamp` (also `DateTime::timestamp` through
`and_utc()`): the whole-second part, dropping sub-second precision. -/
def NaiveDT.timestamp (n : NaiveDT) : Int :=
  n.secs

/-- First representable chrono second (year -262144, the `i32::MIN >> 13`
year bound). -/
def chronoMinSecs : Int :=
  daysFromCivil (-262144) 1 1 * 86400

/-- Last representable chrono second (year 262143, the `i32::MAX >> 13`
year bound). -/
def chronoMaxSecs : Int :=
  daysFromCivil 262143 12 31 * 86400 + 86399

/-- chrono `DateTime::from_timestamp(secs, nsecs)`: `None` when the seconds
are outside chrono's representable range or the nanoseconds are invalid. -/
def DateTime.from_timestamp (secs : Int) (ns : Nat) : Option DT :=
  if chronoMinSecs ≤ secs ∧ secs ≤ chronoMaxSecs ∧ ns < 2000000000 then
    some ⟨secs, ns⟩
  else none

theorem from_timestamp_nsecs {secs : Int} {ns : Nat} {dt : DT}
    (h : DateTime.from_timestamp secs ns = some dt) :
    dt.secs = secs ∧ dt.nsecs = ns := by
  unfold DateTime.from_timestamp at h
  split at h
  · cases h; exact ⟨rfl, rfl⟩
  · cases h

/-! ### Regex scanning and timestamp parsing -/

/-- Digit character test. -/
def isDigitChar (c : Char) : Bool :=
  '0' ≤ c && c ≤ '9'

/-- Numeric value of a digit character. -/
def digitVal (c : Char) : Nat :=
  c.toNat - '0'.toNat

/-- Two-digit number. -/
def num2 (a b : Char) : Nat :=
  digitVal a * 10 + digitVal b

/-- Three-digit number. -/
def num3 (a b c : Char) : Nat :=
  digitVal a * 100 + digitVal b * 10 + digitVal c

/-- Four-digit number. -/
def num4 (a b c d : Char) : Nat :=
  digitVal a * 1000 + digitVal b * 100 + digitVal c * 10 + digitVal d

/-- Match a literal character sequence at the head of the input, returning
the rest. -/
def stripLit : List Char → List Char → Option (List Char)
  | [], cs => some cs
  | l :: ls, c :: cs => if c = l then stripLit ls cs else none
  | _ :: _, [] => none

/-- Non-overlapping leftmost regex scan (`Regex::captures_iter`): at each
position try the pattern; on a match emit its capture and resume after the
match, otherwise move one character right.  `fuel` is the input length (each
step consumes at least one character). -/
def scanWith {α : Type} (matchAt : List Char → Option (α × List Char)) :
    Nat → List Char → List α
  | 0, _ => []
  | _ + 1, [] => []
  | fuel + 1, c :: cs =>
    match matchAt (c :: cs) with
    | some (cap, rest) => cap :: scanWith matchAt fuel rest
    | none => scanWith matchAt fuel cs

/-- Rust `Iterator::map(..).collect::<Vec<_>>()` where the closure may
panic: the first panic aborts the whole computation. -/
def mapExcept {α β : Type} (f : α → Except String β) :
    List α → Except String (List β)
  | [] => .ok []
  | x :: xs =>
    match f x with
    | .error e => .error e
    | .ok y =>
      match mapExcept f xs with
      | .error e => .error e
      | .ok ys => .ok (y :: ys)

/-- chrono `NaiveDateTime::parse_from_str` with format
`%Y-%m-%dT%H:%M:%SZ`, on a 20-character candidate. -/
def chronoParseNaiveZ (cap : List Char) : Option NaiveDT :=
  match cap with
  | [y1, y2, y3, y4, '-', m1, m2, '-', d1, d2, 'T',
     h1, h2, ':', mi1, mi2, ':', s1, s2, 'Z'] =>
    if isDigitChar y1 && isDigitChar y2 && isDigitChar y3 && isDigitChar y4 &&
        isDigitChar m1 && isDigitChar m2 && isDigitChar d1 && isDigitChar d2 &&
        isDigitChar h1 && isDigitChar h2 && isDigitChar mi1 && isDigitChar mi2 &&
        isDigitChar s1 && isDigitChar s2 then
      mkNaiveDT (num4 y1 y2 y3 y4) (num2 m1 m2) (num2 d1 d2)
        (num2 h1 h2) (num2 mi1 mi2) (num2 s1 s2) 0
    else none
  | _ => none

/-- chrono `DateTime::parse_from_str` with format `%Y-%m-%dT%H:%M:%S%z`, on
a 25-character candidate: the naive local datetime plus the parsed offset in
seconds (rejected when outside `FixedOffset`'s open bound of a day). -/
def chronoParseOffset (cap : List Char) : Option (NaiveDT × Int) :=
  match cap with
  | [y1, y2, y3, y4, '-', m1, m2, '-', d1, d2, 'T',
     h1, h2, ':', mi1, mi2, ':', s1, s2, sgn, o1, o2, ':', o3, o4] =>
    if (isDigitChar y1 && isDigitChar y2 && isDigitChar y3 && isDigitChar y4 &&
        isDigitChar m1 && isDigitChar m2 && isDigitChar d1 && isDigitChar d2 &&
        isDigitChar h1 && isDigitChar h2 && isDigitChar mi1 && isDigitChar mi2 &&
        isDigitChar s1 && isDigitChar s2 &&
        isDigitChar o1 && isDigitChar o2 && isDigitChar o3 && isDigitChar o4) &&
        (sgn == '+' || sgn == '-') then
      let magnitude : Int := (num2 o1 o2 : Nat) * 3600 + (num2 o3 o4 : Nat) * 60
      let off : Int := if sgn == '-' then -magnitude else magnitude
      if -86400 < off ∧ off < 86400 then
        (mkNaiveDT (num4 y1 y2 y3 y4) (num2 m1 m2) (num2 d1 d2)
          (num2 h1 h2) (num2 mi1 mi2) (num2 s1 s2) 0).map (fun ndt => (ndt, off))
      else none
    else none
  | _ => none

/-- The GitHub regex
`"timestamp":"(\d\d\d\d-\d\d-\d\dT\d\d:\d\d:\d\dZ)"` tried at the head of
the input: on success, the captured group and the input after the match. -/
def githubMatchAt (cs : List Char) : Option (List Char × List Char) := do
  let r ← stripLit ("\"timestamp\":\"".data) cs
  match r with
  | y1 :: y2 :: y3 :: y4 :: c1 :: m1 :: m2 :: c2 :: d1 :: d2 :: t ::
      h1 :: h2 :: c3 :: mi1 :: mi2 :: c4 :: s1 :: s2 :: z :: q :: rest =>
    if isDigitChar y1 && isDigitChar y2 && isDigitChar y3 && isDigitChar y4 &&
        c1 == '-' && isDigitChar m1 && isDigitChar m2 && c2 == '-' &&
        isDigitChar d1 && isDigitChar d2 && t == 'T' &&
        isDigitChar h1 && isDigitChar h2 && c3 == ':' &&
        isDigitChar mi1 && isDigitChar mi2 && c4 == ':' &&
        isDigitChar s1 && isDigitChar s2 && z == 'Z' && q == '"' then
      some ([y1, y2, y3, y4, c1, m1, m2, c2, d1, d2, t,
             h1, h2, c3, mi1, mi2, c4, s1, s2, z], rest)
    else none
  | _ => none

/-- One captured GitHub timestamp: `NaiveDateTime::parse_from_str(s,
"%Y-%m-%dT%H:%M:%SZ").expect(..)`, then `.and_utc().timestamp()`, then
`DateTime::from_timestamp(secs, 0).expect(..)`; the `expect`s surface as
errors. -/
def githubParseCap (cap : List Char) : Except String DT :=
  match chronoParseNaiveZ cap with
  | none => .error "unexpected timestamp format"
  | some ndt =>
    match DateTime.from_timestamp ndt.timestamp 0 with
    | none => .error "from_timestamp failed"
    | some dt => .ok dt

/-- `GitHubSource::parse_timestamps` from `src/ferriby/src/github.rs`. -/
def GitHubSource.parse_timestamps (response : String) :
    Except String (List DT) :=
  mapExcept githubParseCap
    (scanWith githubMatchAt response.data.length response.data)

/-- The Forgejo regex alternation from `src/ferriby/src/forgejo.rs`, tried
at the head of the input: group 1 (`inl`) is the `Z`-suffixed form, group 2
(`inr`) the `[+-]hh:mm` form; the `Z` branch is tried first, as in the
regex's left-to-right alternation. -/
def forgejoMatchAt (cs : List Char) :
    Option ((List Char ⊕ List Char) × List Char) := do
  let r ← stripLit ("\"updated_at\":\"".data) cs
  match r with
  | y1 :: y2 :: y3 :: y4 :: c1 :: m1 :: m2 :: c2 :: d1 :: d2 :: t ::
      h1 :: h2 :: c3 :: mi1 :: mi2 :: c4 :: s1 :: s2 :: rest1 =>
    if isDigitChar y1 && isDigitChar y2 && isDigitChar y3 && isDigitChar y4 &&
        c1 == '-' && isDigitChar m1 && isDigitChar m2 && c2 == '-' &&
        isDigitChar d1 && isDigitChar d2 && t == 'T' &&
        isDigitChar h1 && isDigitChar h2 && c3 == ':' &&
        isDigitChar mi1 && isDigitChar mi2 && c4 == ':' &&
        isDigitChar s1 && isDigitChar s2 then
      match rest1 with
      | 'Z' :: '"' :: rest =>
        some (Sum.inl [y1, y2, y3, y4, c1, m1, m2, c2, d1, d2, t,
                       h1, h2, c3, mi1, mi2, c4, s1, s2, 'Z'], rest)
      | sgn :: o1 :: o2 :: oc :: o3 :: o4 :: q :: rest =>
        if (sgn == '+' || sgn == '-') && isDigitChar o1 && isDigitChar o2 &&
            oc == ':' && isDigitChar o3 && isDigitChar o4 && q == '"' then
          some (Sum.inr [y1, y2, y3, y4, c1, m1, m2, c2, d1, d2, t,
                         h1, h2, c3, mi1, mi2, c4, s1, s2, sgn, o1, o2, oc, o3, o4],
                rest)
        else none
      | _ => none
    else none
  | _ => none

/-- One captured Forgejo timestamp: the `Z` capture parses like GitHub's,
the offset capture via `DateTime::parse_from_str(s, "%Y-%m-%dT%H:%M:%S%z")`
whose `.timestamp()` subtracts the offset; both end in
`DateTime::from_timestamp(secs, 0)`. -/
def forgejoParseCap (cap : List Char ⊕ List Char) : Except String DT :=
  match cap with
  | .inl capZ =>
    match chronoParseNaiveZ capZ with
    | none => .error "unexpected timestamp format"
    | some ndt =>
      match DateTime.from_timestamp ndt.timestamp 0 with
      | none => .error "from_timestamp failed"
      | some dt => .ok dt
  | .inr capOff =>
    match chronoParseOffset capOff with
    | none => .error "unexpected timestamp format"
    | some (ndt, off) =>
      match DateTime.from_timestamp (ndt.timestamp - off) 0 with
      | none => .error "from_timestamp failed"
      | some dt => .ok dt

/-- `ForgejoSource::parse_timestamps` from `src/ferriby/src/forgejo.rs`. -/
def ForgejoSource.parse_timestamps (response : String) :
    Except String (List DT) :=
  mapExcept forgejoParseCap
    (scanWith forgejoMatchAt response.data.length response.data)

/-- The GitLab regex
`"created_at":"(\d\d\d\d-\d\d-\d\dT\d\d:\d\d:\d\d.\d\d\dZ)"` tried at the
head of the input.  The `.` is the regex any-character wildcard (anything
but a newline), not a literal dot. -/
def gitlabMatchAt (cs : List Char) : Option (List Char × List Char) := do
  let r ← stripLit ("\"created_at\":\"".data) cs
  match r with
  | y1 :: y2 :: y3 :: y4 :: c1 :: m1 :: m2 :: c2 :: d1 :: d2 :: t ::
      h1 :: h2 :: c3 :: mi1 :: mi2 :: c4 :: s1 :: s2 :: sep ::
      f1 :: f2 :: f3 :: z :: q :: rest =>
    if isDigitChar y1 && isDigitChar y2 && isDigitChar y3 && isDigitChar y4 &&
        c1 == '-' && isDigitChar m1 && isDigitChar m2 && c2 == '-' &&
        isDigitChar d1 && isDigitChar d2 && t == 'T' &&
        isDigitChar h1 && isDigitChar h2 && c3 == ':' &&
        isDigitChar mi1 && isDigitChar mi2 && c4 == ':' &&
        isDigitChar s1 && isDigitChar s2 && sep != '\n' &&
        isDigitChar f1 && isDigitChar f2 && isDigitChar f3 &&
        z == 'Z' && q == '"' then
      some ([y1, y2, y3, y4, c1, m1, m2, c2, d1, d2, t,
             h1, h2, c3, mi1, mi2, c4, s1, s2, sep, f1, f2, f3, z], rest)
    else none
  | _ => none

/-- One captured GitLab timestamp: `NaiveDateTime::parse_from_str(s,
"%Y-%m-%dT%H:%M:%S%.fZ")` keeps the parsed fraction as nanoseconds (the
format fails when the wildcard-matched separator is not an actual dot);
`.and_utc().timestamp()` then drops the fraction, and
`DateTime::from_timestamp(secs, 0)` rebuilds the instant with zero
sub-second part. -/
def gitlabParseCap (cap : List Char) : Except String DT :=
  match cap with
  | [y1, y2, y3, y4, '-', m1, m2, '-', d1, d2, 'T',
     h1, h2, ':', mi1, mi2, ':', s1, s2, sep, f1, f2, f3, 'Z'] =>
    if sep = '.' ∧
        (isDigitChar y1 && isDigitChar y2 && isDigitChar y3 && isDigitChar y4 &&
         isDigitChar m1 && isDigitChar m2 && isDigitChar d1 && isDigitChar d2 &&
         isDigitChar h1 && isDigitChar h2 && isDigitChar mi1 && isDigitChar mi2 &&
         isDigitChar s1 && isDigitChar s2 &&
         isDigitChar f1 && isDigitChar f2 && isDigitChar f3) = true then
      match mkNaiveDT (num4 y1 y2 y3 y4) (num2 m1 m2) (num2 d1 d2)
          (num2 h1 h2) (num2 mi1 mi2) (num2 s1 s2)
          (num3 f1 f2 f3 * 1000000) with
      | none => .error "unexpected timestamp format"
      | some ndt =>
        match DateTime.from_timestamp ndt.timestamp 0 with
        | none => .error "from_timestamp failed"
        | some dt => .ok dt
    else .error "unexpected timestamp format"
  | _ => .error "unexpected timestamp format"

/-- `GitLabSource::parse_timestamps` from `src/ferriby/src/gitlab.rs`. -/
def GitLabSource.parse_timestamps (response : String) :
    Except String (List DT) :=
  mapExcept gitlabParseCap
    (scanWith gitlabMatchAt response.data.length response.data)

theorem mapExcept_mem {α β : Type} {f : α → Except String β} :
    ∀ {l : List α} {ys : List β}, mapExcept f l = .ok ys →
      ∀ y ∈ ys, ∃ x ∈ l, f x = .ok y := by
  intro l
  induction l with
  | nil =>
    intro ys h y hy
    rw [mapExcept] at h
    cases h
    cases hy
  | cons x xs ih =>
    intro ys h y hy
    rw [mapExcept] at h
    cases hfx : f x with
    | error e => rw [hfx] at h; cases h
    | ok b =>
      rw [hfx] at h
      cases hr : mapExcept f xs with
      | error e => rw [hr] at h; cases h
      | ok bs =>
        rw [hr] at h
        cases h
        rcases List.mem_cons.mp hy with rfl | hmem
        · exact ⟨x, List.mem_cons_self x xs, hfx⟩
        · obtain ⟨x', hx', hfx'⟩ := ih hr y hmem
          exact ⟨x', List.mem_cons_of_mem x hx', hfx'⟩

theorem githubParseCap_nsecs {cap : List Char} {dt : DT}
    (h : githubParseCap cap = .ok dt) : dt.nsecs = 0 := by
  unfold githubParseCap at h
  split at h
  · cases h
  next ndt hndt =>
    split at h
    · cases h
    next dt' hdt' =>
      cases h
      exact (from_timestamp_nsecs hdt').2

theorem forgejoParseCap_nsecs {cap : List Char ⊕ List Char} {dt : DT}
    (h : forgejoParseCap cap = .ok dt) : dt.nsecs = 0 := by
  rcases cap with capZ | capOff
  · cases hndt : chronoParseNaiveZ capZ with
    | none => simp [forgejoParseCap, hndt] at h
    | some ndt =>
      cases hdt : DateTime.from_timestamp ndt.timestamp 0 with
      | none => simp [forgejoParseCap, hndt, hdt] at h
      | some dt' =>
        simp only [forgejoParseCap, hndt, hdt] at h
        cases h
        exact (from_timestamp_nsecs hdt).2
  · cases hp : chronoParseOffset capOff with
    | none => simp [forgejoParseCap, hp] at h
    | some p =>
      cases hdt : DateTime.from_timestamp (p.1.timestamp - p.2) 0 with
      | none => simp [forgejoParseCap, hp, hdt] at h
      | some dt' =>
        simp only [forgejoParseCap, hp, hdt] at h
        cases h
        exact (from_timestamp_nsecs hdt).2

theorem gitlabParseCap_nsecs {cap : List Char} {dt : DT}
    (h : gitlabParseCap cap = .ok dt) : dt.nsecs = 0 := by
  unfold gitlabParseCap at h
  split at h
  case _ y1 y2 y3 y4 m1 m2 d1 d2 h1 h2 mi1 mi2 s1 s2 sep f1 f2 f3 =>
    split at h
    · split at h
      · cases h
      next ndt hndt =>
        split at h
        · cases h
        next dt' hdt' =>
          cases h
          exact (from_timestamp_nsecs hdt').2
    · cases h
  case _ => cases h

/-- C10: every timestamp any hosted-provider parser yields has a zero
sub-second component: GitHub, Forgejo and GitLab parses all rebuild their
instants through `from_timestamp(secs, 0)`, and for GitLab, whose field
carries millisecond precision, two inputs differing only within the same
second parse to equal instants. -/
theorem c10_whole_second_instants :
    (∀ response ts, GitHubSource.parse_timestamps response = .ok ts →
      ∀ dt ∈ ts, dt.nsecs = 0) ∧
    (∀ response ts, ForgejoSource.parse_timestamps response = .ok ts →
      ∀ dt ∈ ts, dt.nsecs = 0) ∧
    (∀ response ts, GitLabSource.parse_timestamps response = .ok ts →
      ∀ dt ∈ ts, dt.nsecs = 0) ∧
    GitLabSource.parse_timestamps
        "\"created_at\":\"2025-07-14T21:12:15.564Z\" bla foo\"created_at\":\"2025-07-14T21:12:15.137Z\"" =
      .ok [⟨civilSecs 2025 7 14 21 12 15, 0⟩, ⟨civilSecs 2025 7 14 21 12 15, 0⟩] := by
  refine ⟨?_, ?_, ?_, rfl⟩
  · intro response ts h dt hdt
    obtain ⟨cap, _, hcap⟩ := mapExcept_mem h dt hdt
    exact githubParseCap_nsecs hcap
  · intro response ts h dt hdt
    obtain ⟨cap, _, hcap⟩ := mapExcept_mem h dt hdt
    exact forgejoParseCap_nsecs hcap
  · intro response ts h dt hdt
    obtain ⟨cap, _, hcap⟩ := mapExcept_mem h dt hdt
    exact gitlabParseCap_nsecs hcap

theorem c10_whole_second_instants_witness : (⟨1747428079, 0⟩ : DT).nsecs = 0 :=
  c10_whole_second_instants.1 "\"timestamp\":\"2025-05-16T20:41:19Z\""
    [⟨1747428079, 0⟩] rfl ⟨1747428079, 0⟩ (by simp)

theorem mapExcept_length {α β : Type} {f : α → Except String β} :
    ∀ {l : List α} {ys : List β}, mapExcept f l = .ok ys →
      ys.length = l.length := by
  intro l
  induction l with
  | nil =>
    intro ys h
    rw [mapExcept] at h
    cases h
    rfl
  | cons x xs ih =>
    intro ys h
    rw [mapExcept] at h
    cases hfx : f x with
    | error e => rw [hfx] at h; cases h
    | ok b =>
      rw [hfx] at h
      cases hr : mapExcept f xs with
      | error e => rw [hr] at h; cases h
      | ok bs =>
        rw [hr] at h
        cases h
        simp [ih hr]

theorem DT.lex_le_refl (a : DT) : DT.le a a :=
  Or.inr ⟨rfl, Nat.le_refl _⟩

theorem DT.lex_le_trans {a b c : DT} (h1 : DT.le a b) (h2 : DT.le b c) :
    DT.le a c := by
  unfold DT.le at *
  omega

theorem DT.lex_le_of_lt {a b : DT} (h : DT.lt a b) : DT.le a b := by
  unfold DT.lt at h
  unfold DT.le
  omega

theorem DT.lex_le_of_not_lt {a b : DT} (h : ¬ DT.lt a b) : DT.le b a := by
  unfold DT.lt at h
  unfold DT.le
  omega

/-- The fold step of `listMax` (Rust's `max` accumulator: the later element
wins ties), named for reasoning. -/
def maxStep (acc : Option DT) (x : DT) : Option DT :=
  match acc with
  | none => some x
  | some a => some (if DT.lt x a then a else x)

theorem listMax_eq_foldl (l : List DT) : listMax l = l.foldl maxStep none :=
  rfl

theorem maxStep_go : ∀ (l : List DT) (a : DT), ∃ m,
    l.foldl maxStep (some a) = some m ∧ (m = a ∨ m ∈ l) ∧ DT.le a m ∧
      ∀ t ∈ l, DT.le t m := by
  intro l
  induction l with
  | nil =>
    intro a
    exact ⟨a, rfl, Or.inl rfl, DT.lex_le_refl a, by simp⟩
  | cons x xs ih =>
    intro a
    by_cases hlt : DT.lt x a
    · obtain ⟨m, hm, hmem, hle, hall⟩ := ih a
      have hstep : maxStep (some a) x = some a := by simp [maxStep, hlt]
      refine ⟨m, ?_, ?_, hle, ?_⟩
      · rw [List.foldl_cons, hstep]; exact hm
      · rcases hmem with rfl | hmem
        · exact Or.inl rfl
        · exact Or.inr (List.mem_cons_of_mem _ hmem)
      · intro t ht
        rcases List.mem_cons.mp ht with rfl | ht
        · exact DT.lex_le_trans (DT.lex_le_of_lt hlt) hle
        · exact hall t ht
    · obtain ⟨m, hm, hmem, hle, hall⟩ := ih x
      have hstep : maxStep (some a) x = some x := by simp [maxStep, hlt]
      refine ⟨m, ?_, ?_, DT.lex_le_trans (DT.lex_le_of_not_lt hlt) hle, ?_⟩
      · rw [List.foldl_cons, hstep]; exact hm
      · rcases hmem with rfl | hmem
        · exact Or.inr (List.mem_cons_self _ _)
        · exact Or.inr (List.mem_cons_of_mem _ hmem)
      · intro t ht
        rcases List.mem_cons.mp ht with rfl | ht
        · exact hle
        · exact hall t ht

theorem listMax_spec {l : List DT} {m : DT} (h : listMax l = some m) :
    m ∈ l ∧ ∀ t ∈ l, DT.le t m := by
  rw [listMax_eq_foldl] at h
  cases l with
  | nil => cases h
  | cons x xs =>
    rw [List.foldl_cons, show maxStep none x = some x from rfl] at h
    obtain ⟨m2, hm2, hmem, hle, hall⟩ := maxStep_go xs x
    rw [hm2] at h
    cases h
    constructor
    · rcases hmem with rfl | hmem
      · exact List.mem_cons_self _ _
      · exact List.mem_cons_of_mem _ hmem
    · intro t ht
      rcases List.mem_cons.mp ht with rfl | ht
      · exact hle
      · exact hall t ht

theorem forgejoParseCap_inl {cap : List Char} {dt : DT}
    (h : forgejoParseCap (.inl cap) = .ok dt) :
    ∃ ndt, chronoParseNaiveZ cap = some ndt ∧
      dt.secs = ndt.timestamp ∧ dt.nsecs = 0 := by
  cases hndt : chronoParseNaiveZ cap with
  | none => simp [forgejoParseCap, hndt] at h
  | some ndt =>
    cases hdt : DateTime.from_timestamp ndt.timestamp 0 with
    | none => simp [forgejoParseCap, hndt, hdt] at h
    | some dt2 =>
      simp only [forgejoParseCap, hndt, hdt] at h
      cases h
      exact ⟨ndt, rfl, (from_timestamp_nsecs hdt).1, (from_timestamp_nsecs hdt).2⟩

theorem forgejoParseCap_inr {cap : List Char} {dt : DT}
    (h : forgejoParseCap (.inr cap) = .ok dt) :
    ∃ ndt off, chronoParseOffset cap = some (ndt, off) ∧
      dt.secs = ndt.timestamp - off ∧ dt.nsecs = 0 := by
  cases hp : chronoParseOffset cap with
  | none => simp [forgejoParseCap, hp] at h
  | some p =>
    obtain ⟨ndt, off⟩ := p
    cases hdt : DateTime.from_timestamp (ndt.timestamp - off) 0 with
    | none => simp [forgejoParseCap, hp, hdt] at h
    | some dt2 =>
      simp only [forgejoParseCap, hp, hdt] at h
      cases h
      exact ⟨ndt, off, rfl, (from_timestamp_nsecs hdt).1,
        (from_timestamp_nsecs hdt).2⟩

/-- C5: for every response text, the Forgejo parser yields one UTC instant
per regex occurrence; a `Z` capture parses to its naive UTC seconds and an
offset capture to its naive local seconds minus the parsed offset (the
offset applied), and every instant `max()` selects is one of the parsed
instants and at least as late as every other — the chronologically latest
independent of how each timestamp was textually written.  On the spec's
example, `2025-07-11T12:30:20-02:00` parses to the instant
`2025-07-11T14:30:20Z` and is selected over the textually later-looking
but chronologically earlier `+02:00` entry. -/
theorem c5_offset_aware_parsing :
    (∀ response ts, ForgejoSource.parse_timestamps response = .ok ts →
      ts.length =
        (scanWith forgejoMatchAt response.data.length response.data).length) ∧
    (∀ cap dt, forgejoParseCap (.inl cap) = .ok dt →
      ∃ ndt, chronoParseNaiveZ cap = some ndt ∧
        dt.secs = ndt.timestamp ∧ dt.nsecs = 0) ∧
    (∀ cap dt, forgejoParseCap (.inr cap) = .ok dt →
      ∃ ndt off, chronoParseOffset cap = some (ndt, off) ∧
        dt.secs = ndt.timestamp - off ∧ dt.nsecs = 0) ∧
    (∀ ts m, listMax ts = some m → m ∈ ts ∧ ∀ t ∈ ts, DT.le t m) ∧
    ForgejoSource.parse_timestamps
        "\"updated_at\":\"2025-07-11T12:30:20-02:00\" bla foo\"updated_at\":\"2025-07-11T13:31:22+02:00\"" =
      .ok [⟨civilSecs 2025 7 11 14 30 20, 0⟩, ⟨civilSecs 2025 7 11 11 31 22, 0⟩] ∧
    listMax [⟨civilSecs 2025 7 11 14 30 20, 0⟩, ⟨civilSecs 2025 7 11 11 31 22, 0⟩] =
      some ⟨civilSecs 2025 7 11 14 30 20, 0⟩ ∧
    civilSecs 2025 7 11 12 30 20 < civilSecs 2025 7 11 13 31 22 := by
  refine ⟨?_, ?_, ?_, ?_, rfl, by decide, by decide⟩
  · intro response ts h
    unfold ForgejoSource.parse_timestamps at h
    exact mapExcept_length h
  · intro cap dt h
    exact forgejoParseCap_inl h
  · intro cap dt h
    exact forgejoParseCap_inr h
  · intro ts m h
    exact listMax_spec h

theorem c5_offset_aware_parsing_witness :
    ([⟨civilSecs 2025 7 11 14 30 20, 0⟩,
        ⟨civilSecs 2025 7 11 11 31 22, 0⟩] : List DT).length =
      (scanWith forgejoMatchAt
        ("\"updated_at\":\"2025-07-11T12:30:20-02:00\" bla foo\"updated_at\":\"2025-07-11T13:31:22+02:00\"" : String).data.length
        ("\"updated_at\":\"2025-07-11T12:30:20-02:00\" bla foo\"updated_at\":\"2025-07-11T13:31:22+02:00\"" : String).data).length :=
  c5_offset_aware_parsing.1
    "\"updated_at\":\"2025-07-11T12:30:20-02:00\" bla foo\"updated_at\":\"2025-07-11T13:31:22+02:00\""
    [⟨civilSecs 2025 7 11 14 30 20, 0⟩, ⟨civilSecs 2025 7 11 11 31 22, 0⟩] rfl

/-! ### Hosted fetchers over an abstract HTTP capability -/

/-- The raw response body, abstracted to its UTF-8 decoding outcome
(`none`: `std::str::from_utf8` fails). -/
structure ByteBody where
  asUtf8 : Option String
deriving DecidableEq, Repr

/-- An HTTP response: whether `error_for_status` passes, and the outcome of
reading the full body (`none`: the in-flight body read fails, so `bytes()`
returns an error). -/
structure HttpResponse where
  statusSuccess : Bool
  bytesResult : Option ByteBody
deriving DecidableEq, Repr

/-- `client.execute(request).await.and_then(|r| r.error_for_status())`:
the transport-level outcome (`Except.error ()`: request execution failed)
chained with the non-success-status check. -/
def error_for_status (exec : Except Unit HttpResponse) :
    Except Unit HttpResponse :=
  match exec with
  | .ok r => if r.statusSuccess then .ok r else .error ()
  | .error e => .error e

/-- `get_with_headers` from `src/ferriby/src/githoster.rs`; the URL and
headers do not influence the modelled control flow, the outcome of the
request stands in for them as the `exec` argument.  The `expect`s on
`bytes()` and `from_utf8()` surface as errors. -/
def get_with_headers (exec : Except Unit HttpResponse) :
    Except String (Option String) :=
  match error_for_status exec with
  | .ok response =>
    match response.bytesResult with
    | none => .error "bytes() failed"
    | some bytes =>
      match bytes.asUtf8 with
      | none => .error "from_utf8() failed"
      | some body_str => .ok (some body_str)
  | .error _ => .ok none

/-- The `GitHubSource` struct of `src/ferriby/src/github.rs`. -/
structure GitHubSource where
  owner : String
  repo : String
  pat : Option String
deriving DecidableEq, Repr

/-- The `ForgejoSource` struct of `src/ferriby/src/forgejo.rs` (the `Url`
abstracted to its text). -/
structure ForgejoSource where
  base_url : String
  owner : String
  repo : String
  pat : Option String
deriving DecidableEq, Repr

/-- The `GitLabSource` struct of `src/ferriby/src/gitlab.rs`. -/
structure GitLabSource where
  hostname : String
  project_id : String
  project_name : String
  pat : Option String
deriving DecidableEq, Repr

/-- `GitHubSource::get_last_activity`: on a successful request, parse the
body and return the maximum timestamp; on an execution or status failure,
`None`. -/
def GitHubSource.get_last_activity (_self : GitHubSource)
    (exec : Except Unit HttpResponse) : Except String (Option DT) :=
  match error_for_status exec with
  | .ok response =>
    match response.bytesResult with
    | none => .error "bytes() failed"
    | some bytes =>
      match bytes.asUtf8 with
      | none => .error "from_utf8() failed"
      | some body_str =>
        match GitHubSource.parse_timestamps body_str with
        | .error e => .error e
        | .ok timestamps => .ok (listMax timestamps)
  | .error _ => .ok none

/-- `ForgejoSource::get_last_activity`, via `get_with_headers`. -/
def ForgejoSource.get_last_activity (_self : ForgejoSource)
    (exec : Except Unit HttpResponse) : Except String (Option DT) :=
  match get_with_headers exec with
  | .error e => .error e
  | .ok (some body) =>
    match ForgejoSource.parse_timestamps body with
    | .error e => .error e
    | .ok timestamps => .ok (listMax timestamps)
  | .ok none => .ok none

/-- `GitLabSource::get_last_activity`, via `get_with_headers`. -/
def GitLabSource.get_last_activity (_self : GitLabSource)
    (exec : Except Unit HttpResponse) : Except String (Option DT) :=
  match get_with_headers exec with
  | .error e => .error e
  | .ok (some body) =>
    match GitLabSource.parse_timestamps body with
    | .error e => .error e
    | .ok timestamps => .ok (listMax timestamps)
  | .ok none => .ok none

/-- C3 counterexample: a request whose status is successful but whose body
read fails makes `GitHubSource::get_last_activity` panic (`bytes()
failed`) instead of returning `None` — the fetch can propagate an error. -/
theorem c3_counterexample_body_read_panic :
    GitHubSource.get_last_activity ⟨"rust-lang", "rust", none⟩
      (.ok ⟨true, none⟩) = .error "bytes() failed" := rfl

/-- C3 (amended): every hosted fetch resolves to `None` on a failed
request execution, a non-success HTTP status, or a success body with zero
timestamp matches, and a timestamp is returned only when the request
succeeded and at least one match parsed; however a failure reading the
body (`bytes()`), a non-UTF-8 body, or a matched timestamp that fails to
parse panics rather than returning `None`. -/
theorem c3_soft_failure_amended (gsrc : GitHubSource) (fsrc : ForgejoSource)
    (lsrc : GitLabSource) (exec : Except Unit HttpResponse) :
    (exec = .error () →
      gsrc.get_last_activity exec = .ok none ∧
      fsrc.get_last_activity exec = .ok none ∧
      lsrc.get_last_activity exec = .ok none) ∧
    (∀ r, exec = .ok r → r.statusSuccess = false →
      gsrc.get_last_activity exec = .ok none ∧
      fsrc.get_last_activity exec = .ok none ∧
      lsrc.get_last_activity exec = .ok none) ∧
    (∀ r b body, exec = .ok r → r.statusSuccess = true →
      r.bytesResult = some b → b.asUtf8 = some body →
      (GitHubSource.parse_timestamps body = .ok [] →
        gsrc.get_last_activity exec = .ok none) ∧
      (ForgejoSource.parse_timestamps body = .ok [] →
        fsrc.get_last_activity exec = .ok none) ∧
      (GitLabSource.parse_timestamps body = .ok [] →
        lsrc.get_last_activity exec = .ok none)) ∧
    (∀ r, exec = .ok r → r.statusSuccess = true → r.bytesResult = none →
      gsrc.get_last_activity exec = .error "bytes() failed" ∧
      fsrc.get_last_activity exec = .error "bytes() failed" ∧
      lsrc.get_last_activity exec = .error "bytes() failed") ∧
    (∀ r b, exec = .ok r → r.statusSuccess = true →
      r.bytesResult = some b → b.asUtf8 = none →
      gsrc.get_last_activity exec = .error "from_utf8() failed" ∧
      fsrc.get_last_activity exec = .error "from_utf8() failed" ∧
      lsrc.get_last_activity exec = .error "from_utf8() failed") ∧
    (∀ r b body e, exec = .ok r → r.statusSuccess = true →
      r.bytesResult = some b → b.asUtf8 = some body →
      (GitHubSource.parse_timestamps body = .error e →
        gsrc.get_last_activity exec = .error e) ∧
      (ForgejoSource.parse_timestamps body = .error e →
        fsrc.get_last_activity exec = .error e) ∧
      (GitLabSource.parse_timestamps body = .error e →
        lsrc.get_last_activity exec = .error e)) ∧
    (∀ dt, gsrc.get_last_activity exec = .ok (some dt) →
      ∃ r b body ts, exec = .ok r ∧ r.statusSuccess = true ∧
        r.bytesResult = some b ∧ b.asUtf8 = some body ∧
        GitHubSource.parse_timestamps body = .ok ts ∧ ts ≠ [] ∧
        listMax ts = some dt) ∧
    (∀ dt, fsrc.get_last_activity exec = .ok (some dt) →
      ∃ r b body ts, exec = .ok r ∧ r.statusSuccess = true ∧
        r.bytesResult = some b ∧ b.asUtf8 = some body ∧
        ForgejoSource.parse_timestamps body = .ok ts ∧ ts ≠ [] ∧
        listMax ts = some dt) ∧
    (∀ dt, lsrc.get_last_activity exec = .ok (some dt) →
      ∃ r b body ts, exec = .ok r ∧ r.statusSuccess = true ∧
        r.bytesResult = some b ∧ b.asUtf8 = some body ∧
        GitLabSource.parse_timestamps body = .ok ts ∧ ts ≠ [] ∧
        listMax ts = some dt) := by
  refine ⟨?_, ?_, ?_, ?_, ?_, ?_, ?_, ?_, ?_⟩
  · rintro rfl
    exact ⟨rfl, rfl, rfl⟩
  · rintro r rfl hs
    refine ⟨?_, ?_, ?_⟩ <;>
      simp [GitHubSource.get_last_activity, ForgejoSource.get_last_activity,
        GitLabSource.get_last_activity, get_with_headers, error_for_status, hs]
  · rintro r b body rfl hs hb hu
    refine ⟨?_, ?_, ?_⟩ <;> intro hp <;>
      simp [GitHubSource.get_last_activity, ForgejoSource.get_last_activity,
        GitLabSource.get_last_activity, get_with_headers, error_for_status,
        hs, hb, hu, hp, listMax]
  · rintro r rfl hs hb
    refine ⟨?_, ?_, ?_⟩ <;>
      simp [GitHubSource.get_last_activity, ForgejoSource.get_last_activity,
        GitLabSource.get_last_activity, get_with_headers, error_for_status,
        hs, hb]
  · rintro r b rfl hs hb hu
    refine ⟨?_, ?_, ?_⟩ <;>
      simp [GitHubSource.get_last_activity, ForgejoSource.get_last_activity,
        GitLabSource.get_last_activity, get_with_headers, error_for_status,
        hs, hb, hu]
  · rintro r b body e rfl hs hb hu
    refine ⟨?_, ?_, ?_⟩ <;> intro hp <;>
      simp [GitHubSource.get_last_activity, ForgejoSource.get_last_activity,
        GitLabSource.get_last_activity, get_with_headers, error_for_status,
        hs, hb, hu, hp]
  · intro dt h
    cases exec with
    | error e =>
      simp [GitHubSource.get_last_activity, error_for_status] at h
    | ok r =>
      cases hs : r.statusSuccess with
      | false =>
        simp [GitHubSource.get_last_activity, error_for_status, hs] at h
      | true =>
        cases hb : r.bytesResult with
        | none =>
          simp [GitHubSource.get_last_activity, error_for_status, hs, hb] at h
        | some b =>
          cases hu : b.asUtf8 with
          | none =>
            simp [GitHubSource.get_last_activity, error_for_status,
              hs, hb, hu] at h
          | some body =>
            cases hp : GitHubSource.parse_timestamps body with
            | error e =>
              simp [GitHubSource.get_last_activity, error_for_status,
                hs, hb, hu, hp] at h
            | ok ts =>
              have hmax : listMax ts = some dt := by
                simpa [GitHubSource.get_last_activity, error_for_status,
                  hs, hb, hu, hp] using h
              refine ⟨r, b, body, ts, rfl, hs, hb, hu, hp, ?_, hmax⟩
              rintro rfl
              simp [listMax] at hmax
  · intro dt h
    cases exec with
    | error e =>
      simp [ForgejoSource.get_last_activity, get_with_headers,
        error_for_status] at h
    | ok r =>
      cases hs : r.statusSuccess with
      | false =>
        simp [ForgejoSource.get_last_activity, get_with_headers,
          error_for_status, hs] at h
      | true =>
        cases hb : r.bytesResult with
        | none =>
          simp [ForgejoSource.get_last_activity, get_with_headers,
            error_for_status, hs, hb] at h
        | some b =>
          cases hu : b.asUtf8 with
          | none =>
            simp [ForgejoSource.get_last_activity, get_with_headers,
              error_for_status, hs, hb, hu] at h
          | some body =>
            cases hp : ForgejoSource.parse_timestamps body with
            | error e =>
              simp [ForgejoSource.get_last_activity, get_with_headers,
                error_for_status, hs, hb, hu, hp] at h
            | ok ts =>
              have hmax : listMax ts = some dt := by
                simpa [ForgejoSource.get_last_activity, get_with_headers,
                  error_for_status, hs, hb, hu, hp] using h
              refine ⟨r, b, body, ts, rfl, hs, hb, hu, hp, ?_, hmax⟩
              rintro rfl
              simp [listMax] at hmax
  · intro dt h
    cases exec with
    | error e =>
      simp [GitLabSource.get_last_activity, get_with_headers,
        error_for_status] at h
    | ok r =>
      cases hs : r.statusSuccess with
      | false =>
        simp [GitLabSource.get_last_activity, get_with_headers,
          error_for_status, hs] at h
      | true =>
        cases hb : r.bytesResult with
        | none =>
          simp [GitLabSource.get_last_activity, get_with_headers,
            error_for_status, hs, hb] at h
        | some b =>
          cases hu : b.asUtf8 with
          | none =>
            simp [GitLabSource.get_last_activity, get_with_headers,
              error_for_status, hs, hb, hu] at h
          | some body =>
            cases hp : GitLabSource.parse_timestamps body with
            | error e =>
              simp [GitLabSource.get_last_activity, get_with_headers,
                error_for_status, hs, hb, hu, hp] at h
            | ok ts =>
              have hmax : listMax ts = some dt := by
                simpa [GitLabSource.get_last_activity, get_with_headers,
                  error_for_status, hs, hb, hu, hp] using h
              refine ⟨r, b, body, ts, rfl, hs, hb, hu, hp, ?_, hmax⟩
              rintro rfl
              simp [listMax] at hmax

theorem c3_soft_failure_amended_witness :
    GitHubSource.get_last_activity ⟨"rust-lang", "rust", none⟩ (.error ()) =
        .ok none ∧
      ForgejoSource.get_last_activity ⟨"http://localhost", "o", "r", none⟩
          (.error ()) = .ok none ∧
      GitLabSource.get_last_activity ⟨"gitlab.example.com", "1", "proj", none⟩
          (.error ()) = .ok none :=
  (c3_soft_failure_amended ⟨"rust-lang", "rust", none⟩
    ⟨"http://localhost", "o", "r", none⟩
    ⟨"gitlab.example.com", "1", "proj", none⟩ (.error ())).1 rfl

/-! ### Local repository fetcher (`src/ferriby/src/git.rs`) over an
abstract git2 repository capability -/

/-- The `GitSource` struct of `src/ferriby/src/git.rs`. -/
structure GitSource where
  path : String
deriving DecidableEq, Repr

/-- A git2 commit, reduced to what the fetcher reads:
`commit.time().seconds()`. -/
structure Commit where
  time_seconds : Int
deriving DecidableEq, Repr

/-- One item of the `repo.branches(Some(BranchType::Local))` iterator:
an errored item, a branch whose `name()` errors, a branch whose name is not
UTF-8 (`Ok(None)`), or a named branch.  The first three are silently
skipped by the nested `if let`s. -/
inductive BranchEntry where
  | failed
  | nameErr
  | nameNonUtf8
  | named (name : String)
deriving DecidableEq, Repr

/-- A git2 repository, reduced to the capabilities `get_last_event` uses:
the branch-iterator outcome, reference lookup (yielding the reference's
optional target oid), and commit lookup by oid. -/
structure Repo where
  branchesResult : Except String (List BranchEntry)
  find_reference : String → Except String (Option Nat)
  find_commit : Nat → Except String Commit

/-- The names collected from the branch iterator by the nested
`if let Ok(b) = b` / `if let Ok(Some(branch_name)) = b.0.name()`. -/
def localBranchNames (entries : List BranchEntry) : List String :=
  entries.filterMap fun e =>
    match e with
    | .named n => some n
    | _ => none

/-- The per-branch body of the `for branch_name in branch_names` loop:
`find_reference("refs/heads/{name}")`, `.target()`, `find_commit`,
`commit.time().seconds()`, `DateTime::from_timestamp(secs, 0)`; every
failure is a panic (`Except.error`). -/
def branchTime (repo : Repo) (branch_name : String) : Except String DT :=
  match repo.find_reference ("refs/heads/" ++ branch_name) with
  | .error e => .error ("find_reference failed: " ++ e)
  | .ok target =>
    match target with
    | none => .error "Branch reference must have a target"
    | some oid =>
      match repo.find_commit oid with
      | .error e => .error ("find_commit failed: " ++ e)
      | .ok commit =>
        match DateTime.from_timestamp commit.time_seconds 0 with
        | none => .error "DateTime::from_timestamp() failed"
        | some t => .ok t

/-- The branch loop, collecting `branch_times` in branch order; the first
panic aborts. -/
def branchTimes (repo : Repo) : List String → Except String (List DT)
  | [] => .ok []
  | n :: ns =>
    match branchTime repo n with
    | .error e => .error e
    | .ok t =>
      match branchTimes repo ns with
      | .error e => .error e
      | .ok ts => .ok (t :: ts)

/-- `get_last_event` from `src/ferriby/src/git.rs`: `openResult` stands for
`Repository::open_ext` on the source's path (`Except.error`: the open
failed).  Open, branch-enumeration, reference, target and commit failures
all panic; otherwise the maximum branch-tip commit time, `None` when there
are no (named) local branches. -/
def get_last_event (openResult : Except String Repo) :
    Except String (Option DT) :=
  match openResult with
  | .error e => .error ("failed to open git repository: " ++ e)
  | .ok repo =>
    match repo.branchesResult with
    | .error e => .error ("failed to get branches " ++ e)
    | .ok entries =>
      match branchTimes repo (localBranchNames entries) with
      | .error e => .error e
      | .ok branch_times => .ok (listMax branch_times)

theorem DT.lt_asymm {a b : DT} (h : DT.lt a b) : ¬ DT.lt b a := by
  rcases h with h | ⟨h1, h2⟩ <;> rintro (h' | ⟨h1', h2'⟩) <;> omega

/-- C4: the local fetcher returns the maximum tip commit time over the
enumerated local branches (two branches with times `T1 < T2` yield `T2`),
`None` when there are no local branches, and fails fatally on any failure
to open the repository, enumerate branches, or resolve a branch's
reference, target or commit. -/
theorem c4_local_fetcher :
    (∀ e, get_last_event (.error e) =
      .error ("failed to open git repository: " ++ e)) ∧
    (∀ repo e, repo.branchesResult = .error e →
      get_last_event (.ok repo) = .error ("failed to get branches " ++ e)) ∧
    (∀ repo, repo.branchesResult = .ok [] →
      get_last_event (.ok repo) = .ok none) ∧
    (∀ repo entries e, repo.branchesResult = .ok entries →
      branchTimes repo (localBranchNames entries) = .error e →
      get_last_event (.ok repo) = .error e) ∧
    (∀ repo entries ts, repo.branchesResult = .ok entries →
      branchTimes repo (localBranchNames entries) = .ok ts →
      get_last_event (.ok repo) = .ok (listMax ts)) ∧
    (∀ repo n1 n2 t1 t2, repo.branchesResult = .ok [.named n1, .named n2] →
      branchTime repo n1 = .ok t1 → branchTime repo n2 = .ok t2 →
      DT.lt t1 t2 → get_last_event (.ok repo) = .ok (some t2)) := by
  refine ⟨fun e => rfl, ?_, ?_, ?_, ?_, ?_⟩
  · intro repo e hb
    simp [get_last_event, hb]
  · intro repo hb
    simp [get_last_event, hb, localBranchNames, branchTimes, listMax]
  · intro repo entries e hb ht
    simp [get_last_event, hb, ht]
  · intro repo entries ts hb ht
    simp [get_last_event, hb, ht]
  · intro repo n1 n2 t1 t2 hb h1 h2 hlt
    have hnames : localBranchNames [.named n1, .named n2] = [n1, n2] := rfl
    have hts : branchTimes repo [n1, n2] = .ok [t1, t2] := by
      simp [branchTimes, h1, h2]
    have hmax : listMax [t1, t2] = some t2 := by
      simp [listMax, if_neg (DT.lt_asymm hlt)]
    simp [get_last_event, hb, hnames, hts, hmax]

/-- A concrete two-branch repository with tip commit times 100 and 200. -/
def repoTwoBranches : Repo where
  branchesResult := .ok [.named "main", .named "dev"]
  find_reference := fun r =>
    if r = "refs/heads/main" then .ok (some 1) else .ok (some 2)
  find_commit := fun oid =>
    if oid = 1 then .ok ⟨100⟩ else .ok ⟨200⟩

theorem c4_local_fetcher_witness :
    get_last_event (.ok repoTwoBranches) = .ok (some ⟨200, 0⟩) :=
  c4_local_fetcher.2.2.2.2.2 repoTwoBranches "main" "dev" ⟨100, 0⟩ ⟨200, 0⟩
    rfl rfl rfl (by decide)

/-! ### Poll scheduler timing (`src/ferriby/src/event.rs`) -/

/-- The source kinds with a per-kind timer in `src/ferriby/src/event.rs`. -/
inductive TickKind where
  | git
  | github
  | codeberg
deriving DecidableEq, Repr

/-- Time offset (nanoseconds after task start) of the `n`-th (0-based) send
of `EventTask::tick_thread` with period `p` nanoseconds (the
`Duration::from_secs_f32` conversion of the configured interval).  The loop
body sends, then awaits `tokio::time::interval`'s next tick; tokio's first
tick completes immediately and tick `k + 1` completes `k` periods after the
interval's creation, so send `0` happens at offset `0` and send `n + 1`
after `n` completed ticks, at offset `n * p`. -/
def tickSendTime (p : Nat) : Nat → Nat
  | 0 => 0
  | n + 1 => n * p

/-- The per-kind timer tasks `EventTask::run` spawns — one `tick_thread`
per configured interval, in spawn order (git, GitHub, Codeberg), with the
interval in nanoseconds. -/
def spawnedKindTimers (git gh cb : Option Nat) : List (TickKind × Nat) :=
  (match git with
   | some p => [(TickKind.git, p)]
   | none => []) ++
  (match gh with
   | some p => [(TickKind.github, p)]
   | none => []) ++
  (match cb with
   | some p => [(TickKind.codeberg, p)]
   | none => [])

/-- The `EventHandler` state of `src/ferriby/src/event.rs` relevant to
`restart`: the three stored intervals and a generation counter standing for
the currently running `EventTask` actor (`restart` aborts the actor and
spawns a fresh one from the same stored intervals). -/
structure EventHandlerSt where
  git_interval_secs : Option Nat
  github_interval_secs : Option Nat
  codeberg_interval_secs : Option Nat
  actorGen : Nat
deriving DecidableEq, Repr

/-- `EventHandler::restart`: abort the running actor task and spawn a new
`EventTask` from the same sender and the same stored intervals. -/
def EventHandlerSt.restart (h : EventHandlerSt) : EventHandlerSt :=
  { h with actorGen := h.actorGen + 1 }

/-- C2 counterexample: with a 3-second period (3·10^9 ns), the sends with
indices 0 and 1 of a freshly started `tick_thread` both happen at offset 0:
every (re)start fires each enabled timer twice immediately, not once. -/
theorem c2_counterexample_duplicate_immediate_tick :
    tickSendTime 3000000000 0 = 0 ∧ tickSendTime 3000000000 1 = 0 :=
  ⟨rfl, rfl⟩

/-- C2 (amended): every per-kind timer task with a configured interval
fires twice immediately on start (the send before tokio's immediately
completing first tick and the send after it) and then once per elapsed
interval, and each restart spawns exactly one such timer per enabled kind
from the unchanged stored intervals — so the merged stream contains
exactly two immediate ticks per enabled source kind per restart. -/
theorem c2_restart_tick_schedule_amended (git gh cb : Option Nat) (p : Nat)
    (h : EventHandlerSt) (hp : 0 < p) :
    (∀ n, tickSendTime p n = 0 ↔ n < 2) ∧
    (∀ n, 2 ≤ n → tickSendTime p n = (n - 1) * p) ∧
    (git = some p →
      (spawnedKindTimers git gh cb).filter
          (fun kp => kp.1 == TickKind.git) = [(TickKind.git, p)]) ∧
    (gh = some p →
      (spawnedKindTimers git gh cb).filter
          (fun kp => kp.1 == TickKind.github) = [(TickKind.github, p)]) ∧
    (cb = some p →
      (spawnedKindTimers git gh cb).filter
          (fun kp => kp.1 == TickKind.codeberg) = [(TickKind.codeberg, p)]) ∧
    h.restart.git_interval_secs = h.git_interval_secs ∧
    h.restart.github_interval_secs = h.github_interval_secs ∧
    h.restart.codeberg_interval_secs = h.codeberg_interval_secs ∧
    h.restart.actorGen = h.actorGen + 1 := by
  refine ⟨?_, ?_, ?_, ?_, ?_, rfl, rfl, rfl, rfl⟩
  · intro n
    match n with
    | 0 => simp [tickSendTime]
    | 1 => simp [tickSendTime]
    | n + 2 =>
      simp only [tickSendTime]
      constructor
      · intro h0
        rcases Nat.mul_eq_zero.mp h0 with h0 | h0 <;> omega
      · omega
  · intro n hn
    match n, hn with
    | n + 2, _ => simp [tickSendTime]
  · rintro rfl
    rcases gh with _ | q <;> rcases cb with _ | r <;>
      simp [spawnedKindTimers]
  · rintro rfl
    rcases git with _ | q <;> rcases cb with _ | r <;>
      simp [spawnedKindTimers]
  · rintro rfl
    rcases git with _ | q <;> rcases gh with _ | r <;>
      simp [spawnedKindTimers]

theorem c2_restart_tick_schedule_amended_witness :
    tickSendTime 3000000000 2 = 3000000000 ∧
      (spawnedKindTimers (some 3000000000) none none).filter
          (fun kp => kp.1 == TickKind.git) = [(TickKind.git, 3000000000)] ∧
      (EventHandlerSt.restart ⟨some 3000000000, none, none, 0⟩).actorGen = 1 :=
  ⟨by
    have := (c2_restart_tick_schedule_amended (some 3000000000) none none
      3000000000 ⟨some 3000000000, none, none, 0⟩ (by decide)).2.1 2 (by decide)
    simpa using this,
   (c2_restart_tick_schedule_amended (some 3000000000) none none
      3000000000 ⟨some 3000000000, none, none, 0⟩ (by decide)).2.2.1 rfl,
   (c2_restart_tick_schedule_amended (some 3000000000) none none
      3000000000 ⟨some 3000000000, none, none, 0⟩ (by decide)).2.2.2.2.2.2.2.2⟩

/-! ### Application controller (`src/ferriby/src/app.rs`) -/

/-- The `Source` enum of `src/ferriby/src/app.rs`. -/
inductive Source where
  | Git (source : GitSource)
  | GitHub (source : GitHubSource)
  | GitLab (source : GitLabSource)
  | Forgejo (source : ForgejoSource)
deriving DecidableEq, Repr

/-- The `IntervalSecs` struct: one optional cadence per source kind.  The
`f32` seconds are modelled as rationals (the program only ever stores 3.0,
5.0 and 60.0, all exact). -/
structure IntervalSecs where
  git : Option ℚ
  github : Option ℚ
  gitlab : Option ℚ
  forgejo : Option ℚ
deriving DecidableEq, Repr

/-- The `AppEvent` enum of `src/ferriby/src/event.rs`. -/
inductive AppEvent where
  | Quit
deriving DecidableEq, Repr

/-- The `EventHandler` as the controller drives it: the stored intervals, a
queue of injected control events (`send`), and a generation counter
standing for the running actor task (`restart` replaces it). -/
structure EventHandler where
  intervals : IntervalSecs
  sent : List AppEvent
  actorGen : Nat
deriving DecidableEq, Repr

/-- `EventHandler::new`. -/
def EventHandler.new (intervals : IntervalSecs) : EventHandler :=
  ⟨intervals, [], 0⟩

/-- `EventHandler::send`: queue a control event on the merged channel. -/
def EventHandler.send (h : EventHandler) (app_event : AppEvent) :
    EventHandler :=
  { h with sent := h.sent ++ [app_event] }

/-- `EventHandler::restart`: abort and respawn the actor task set. -/
def EventHandler.restart (h : EventHandler) : EventHandler :=
  { h with actorGen := h.actorGen + 1 }

/-- The `App` struct of `src/ferriby/src/app.rs`. -/
structure App where
  running : Bool
  happiness : Happiness
  events : EventHandler
  sources : List Source
  selected : Nat
  animation : Nat
deriving DecidableEq, Repr

/-- `App::new`: derive each kind's interval from the supplied sources (the
first matching source decides; credentialed hosted kinds poll at 5 s,
uncredentialed at 60 s, a local git source at 3 s), start `Undecided` with
selection 0. -/
def App.new (sources : List Source) : App :=
  let git_interval_secs : Option ℚ :=
    (sources.find? fun s =>
      match s with
      | .Git _ => true
      | _ => false).map fun _ => 3
  let gh_interval_secs : Option ℚ :=
    match sources.findSome? fun s =>
      match s with
      | .GitHub x => some x
      | _ => none with
    | some source => if source.pat.isSome then some 5 else some 60
    | none => none
  let gl_interval_secs : Option ℚ :=
    match sources.findSome? fun s =>
      match s with
      | .GitLab x => some x
      | _ => none with
    | some source => if source.pat.isSome then some 5 else some 60
    | none => none
  let fj_interval_secs : Option ℚ :=
    match sources.findSome? fun s =>
      match s with
      | .Forgejo x => some x
      | _ => none with
    | some source => if source.pat.isSome then some 5 else some 60
    | none => none
  { running := true
    events := EventHandler.new
      ⟨git_interval_secs, gh_interval_secs, gl_interval_secs, fj_interval_secs⟩
    happiness := .Undecided
    sources := sources
    selected := 0
    animation := 0 }

/-- The crossterm key codes the handler distinguishes (`Other` stands for
every remaining code). -/
inductive KeyCode where
  | Esc
  | Char (c : Char)
  | Down
  | Up
  | Other
deriving DecidableEq, Repr

/-- crossterm `KeyModifiers` as flags. -/
structure KeyModifiers where
  control : Bool
  shift : Bool
  alt : Bool
deriving DecidableEq, Repr

/-- `KeyModifiers::CONTROL`. -/
def KeyModifiers.CONTROL : KeyModifiers :=
  ⟨true, false, false⟩

/-- crossterm `KeyEventKind`. -/
inductive KeyEventKind where
  | Press
  | Repeat
  | Release
deriving DecidableEq, Repr

/-- crossterm `KeyEvent`, reduced to the fields the handler reads. -/
structure KeyEvent where
  code : KeyCode
  modifiers : KeyModifiers
  kind : KeyEventKind
deriving DecidableEq, Repr

/-- `App::handle_key_events`: quit keys queue `AppEvent::Quit`; a Down/Up
key press resets Happiness, moves the selection with wraparound and
restarts the scheduler.  The arms are tried in source order.  On an empty
source list the navigation arithmetic panics (`%` by zero, `0 - 1`
underflow), surfacing as `Except.error`. -/
def App.handle_key_events (self : App) (key_event : KeyEvent) :
    Except String App :=
  match key_event.code with
  | .Esc => .ok { self with events := self.events.send .Quit }
  | .Char c =>
    if c = 'q' then .ok { self with events := self.events.send .Quit }
    else if (c = 'c' ∨ c = 'C') ∧ key_event.modifiers = KeyModifiers.CONTROL
    then .ok { self with events := self.events.send .Quit }
    else .ok self
  | .Down =>
    if key_event.kind = .Press then
      if self.sources.length = 0 then
        .error "attempt to calculate the remainder with a divisor of zero"
      else
        .ok { self with
              happiness := .Undecided,
              selected := (self.selected + 1) % self.sources.length,
              events := self.events.restart }
    else .ok self
  | .Up =>
    if key_event.kind = .Press then
      if self.selected = 0 then
        if self.sources.length = 0 then
          .error "attempt to subtract with overflow"
        else
          .ok { self with
                happiness := .Undecided,
                selected := self.sources.length - 1,
                events := self.events.restart }
      else
        .ok { self with
              happiness := .Undecided,
              selected := self.selected - 1,
              events := self.events.restart }
    else .ok self
  | .Other => .ok self

/-- `App::handle_last_activity`: a successful join classifies and stores
the new Happiness (a classifier panic propagates); a failed join stops the
run loop. -/
def App.handle_last_activity (self : App) (now : DT)
    (last_activity : Except Unit (Option DT)) : Except String App :=
  match last_activity with
  | .ok last_event =>
    match Happiness.from_last_activity now last_event with
    | .error e => .error e
    | .ok h => .ok { self with happiness := h }
  | .error _ => .ok { self with running := false }

/-- `App::git_tick`: index the selected source (panicking when out of
bounds, as `self.sources[self.selected]` does); when it is a git source,
await the spawned fetch (`fetched` is its join outcome) and handle it. -/
def App.git_tick (self : App) (now : DT)
    (fetched : Except Unit (Option DT)) : Except String App :=
  match self.sources.get? self.selected with
  | none => .error "index out of bounds"
  | some (.Git _) => self.handle_last_activity now fetched
  | some _ => .ok self

/-- `App::github_tick`, as `git_tick` for GitHub sources. -/
def App.github_tick (self : App) (now : DT)
    (fetched : Except Unit (Option DT)) : Except String App :=
  match self.sources.get? self.selected with
  | none => .error "index out of bounds"
  | some (.GitHub _) => self.handle_last_activity now fetched
  | some _ => .ok self

/-- `App::gitlab_tick`, as `git_tick` for GitLab sources. -/
def App.gitlab_tick (self : App) (now : DT)
    (fetched : Except Unit (Option DT)) : Except String App :=
  match self.sources.get? self.selected with
  | none => .error "index out of bounds"
  | some (.GitLab _) => self.handle_last_activity now fetched
  | some _ => .ok self

/-- `App::forgejo_tick`, as `git_tick` for Forgejo sources. -/
def App.forgejo_tick (self : App) (now : DT)
    (fetched : Except Unit (Option DT)) : Except String App :=
  match self.sources.get? self.selected with
  | none => .error "index out of bounds"
  | some (.Forgejo _) => self.handle_last_activity now fetched
  | some _ => .ok self

/-- `App::animation_tick`: `self.animation.wrapping_add(1)` on a 64-bit
`usize`. -/
def App.animation_tick (self : App) : App :=
  { self with animation := (self.animation + 1) % (2 ^ 64) }

/-- `App::quit`. -/
def App.quit (self : App) : App :=
  { self with running := false }


/-- One controller-state transition of the run loop: a key event, an
animation tick, a per-kind tick (with the fetch's join outcome supplied),
or a quit control event.  Panicking transitions (an `Except.error`) have no
successor state. -/
inductive Step : App → App → Prop where
  | key (st : App) (k : KeyEvent) (st' : App)
      (h : st.handle_key_events k = .ok st') : Step st st'
  | animationTick (st : App) : Step st st.animation_tick
  | gitTick (st : App) (now : DT) (r : Except Unit (Option DT)) (st' : App)
      (h : st.git_tick now r = .ok st') : Step st st'
  | githubTick (st : App) (now : DT) (r : Except Unit (Option DT)) (st' : App)
      (h : st.github_tick now r = .ok st') : Step st st'
  | gitlabTick (st : App) (now : DT) (r : Except Unit (Option DT)) (st' : App)
      (h : st.gitlab_tick now r = .ok st') : Step st st'
  | forgejoTick (st : App) (now : DT) (r : Except Unit (Option DT)) (st' : App)
      (h : st.forgejo_tick now r = .ok st') : Step st st'
  | quitEvent (st : App) : Step st st.quit

/-- Controller states reachable from `init` by run-loop transitions. -/
inductive Reachable (init : App) : App → Prop where
  | refl : Reachable init init
  | step {st st' : App} : Reachable init st → Step st st' → Reachable init st'

theorem handle_key_events_fields {st st' : App} {k : KeyEvent}
    (h : st.handle_key_events k = .ok st') :
    st'.sources = st.sources ∧
      (st.selected < st.sources.length →
        st'.selected < st.sources.length) := by
  obtain ⟨code, mods, kind⟩ := k
  cases code with
  | Esc =>
    cases h
    exact ⟨rfl, fun hv => hv⟩
  | Char c =>
    simp only [App.handle_key_events] at h
    split at h
    · cases h; exact ⟨rfl, fun hv => hv⟩
    · split at h
      · cases h; exact ⟨rfl, fun hv => hv⟩
      · cases h; exact ⟨rfl, fun hv => hv⟩
  | Down =>
    simp only [App.handle_key_events] at h
    split at h
    · split at h
      · cases h
      · cases h
        refine ⟨rfl, fun _ => ?_⟩
        show (st.selected + 1) % st.sources.length < st.sources.length
        exact Nat.mod_lt _ (Nat.pos_of_ne_zero (by assumption))
    · cases h; exact ⟨rfl, fun hv => hv⟩
  | Up =>
    simp only [App.handle_key_events] at h
    split at h
    · split at h
      · split at h
        · cases h
        · cases h
          refine ⟨rfl, fun _ => ?_⟩
          show st.sources.length - 1 < st.sources.length
          have hlen0 : st.sources.length ≠ 0 := by assumption
          omega
      · cases h
        refine ⟨rfl, fun hv => ?_⟩
        show st.selected - 1 < st.sources.length
        omega
    · cases h; exact ⟨rfl, fun hv => hv⟩
  | Other =>
    cases h
    exact ⟨rfl, fun hv => hv⟩

theorem handle_last_activity_fields {st st' : App} {now : DT}
    {r : Except Unit (Option DT)}
    (h : st.handle_last_activity now r = .ok st') :
    st'.sources = st.sources ∧ st'.selected = st.selected := by
  cases r with
  | error e =>
    simp only [App.handle_last_activity] at h
    cases h
    exact ⟨rfl, rfl⟩
  | ok last_event =>
    simp only [App.handle_last_activity] at h
    cases hc : Happiness.from_last_activity now last_event with
    | error e => rw [hc] at h; cases h
    | ok hp => rw [hc] at h; cases h; exact ⟨rfl, rfl⟩

theorem git_tick_fields {st st' : App} {now : DT} {r : Except Unit (Option DT)}
    (h : st.git_tick now r = .ok st') :
    st'.sources = st.sources ∧ st'.selected = st.selected := by
  unfold App.git_tick at h
  split at h
  · cases h
  · exact handle_last_activity_fields h
  · cases h; exact ⟨rfl, rfl⟩

theorem github_tick_fields {st st' : App} {now : DT}
    {r : Except Unit (Option DT)} (h : st.github_tick now r = .ok st') :
    st'.sources = st.sources ∧ st'.selected = st.selected := by
  unfold App.github_tick at h
  split at h
  · cases h
  · exact handle_last_activity_fields h
  · cases h; exact ⟨rfl, rfl⟩

theorem gitlab_tick_fields {st st' : App} {now : DT}
    {r : Except Unit (Option DT)} (h : st.gitlab_tick now r = .ok st') :
    st'.sources = st.sources ∧ st'.selected = st.selected := by
  unfold App.gitlab_tick at h
  split at h
  · cases h
  · exact handle_last_activity_fields h
  · cases h; exact ⟨rfl, rfl⟩

theorem forgejo_tick_fields {st st' : App} {now : DT}
    {r : Except Unit (Option DT)} (h : st.forgejo_tick now r = .ok st') :
    st'.sources = st.sources ∧ st'.selected = st.selected := by
  unfold App.forgejo_tick at h
  split at h
  · cases h
  · exact handle_last_activity_fields h
  · cases h; exact ⟨rfl, rfl⟩

theorem step_preserves_selected {st st' : App} (hs : Step st st')
    (hv : st.selected < st.sources.length) :
    st'.selected < st'.sources.length := by
  cases hs with
  | key k st2 h =>
    obtain ⟨hsrc, hsel⟩ := handle_key_events_fields h
    rw [hsrc]
    exact hsel hv
  | animationTick => exact hv
  | gitTick now r st2 h =>
    obtain ⟨hsrc, hsel⟩ := git_tick_fields h
    rw [hsrc, hsel]
    exact hv
  | githubTick now r st2 h =>
    obtain ⟨hsrc, hsel⟩ := github_tick_fields h
    rw [hsrc, hsel]
    exact hv
  | gitlabTick now r st2 h =>
    obtain ⟨hsrc, hsel⟩ := gitlab_tick_fields h
    rw [hsrc, hsel]
    exact hv
  | forgejoTick now r st2 h =>
    obtain ⟨hsrc, hsel⟩ := forgejo_tick_fields h
    rw [hsrc, hsel]
    exact hv
  | quitEvent => exact hv

/-- C8: the selection invariant `selected < len(sources)` holds in the
initial controller state built from a non-empty source list and is
preserved by every run-loop transition, so it holds in every reachable
controller state. -/
theorem c8_selected_always_valid (sources : List Source) (st : App)
    (hne : sources ≠ []) (hr : Reachable (App.new sources) st) :
    st.selected < st.sources.length := by
  induction hr with
  | refl =>
    have hsel : (App.new sources).selected = 0 := rfl
    have hsrc : (App.new sources).sources = sources := rfl
    rw [hsel, hsrc]
    exact List.length_pos.mpr hne
  | step h hs ih => exact step_preserves_selected hs ih

theorem c8_selected_always_valid_witness :
    (App.new [Source.Git ⟨"."⟩]).selected <
      (App.new [Source.Git ⟨"."⟩]).sources.length :=
  c8_selected_always_valid [Source.Git ⟨"."⟩] (App.new [Source.Git ⟨"."⟩])
    (by decide) Reachable.refl

/-- C7: on a non-empty source list, a Down (next) key press sets the
selection to `(selected + 1) % len`, an Up (previous) key press to
`len - 1` when the selection is `0` and to `selected - 1` otherwise, each
also resetting Happiness to `Undecided` and restarting the scheduler; when
`selected + 1 = len`, the next-formula wraps to `0`. -/
theorem c7_navigation_wraparound (st : App) (key : KeyEvent)
    (hne : st.sources ≠ []) :
    (key.code = .Down → key.kind = .Press →
      st.handle_key_events key = .ok { st with
        happiness := .Undecided,
        selected := (st.selected + 1) % st.sources.length,
        events := st.events.restart }) ∧
    (key.code = .Up → key.kind = .Press →
      st.handle_key_events key = .ok { st with
        happiness := .Undecided,
        selected := if st.selected = 0 then st.sources.length - 1
          else st.selected - 1,
        events := st.events.restart }) ∧
    (st.selected + 1 = st.sources.length →
      (st.selected + 1) % st.sources.length = 0) := by
  have hlen : st.sources.length ≠ 0 := fun h0 => hne (List.length_eq_zero.mp h0)
  obtain ⟨code, mods, kind⟩ := key
  refine ⟨?_, ?_, ?_⟩
  · rintro rfl rfl
    simp [App.handle_key_events, hlen]
  · rintro rfl rfl
    by_cases hz : st.selected = 0
    · simp [App.handle_key_events, hlen, hz]
    · simp [App.handle_key_events, hlen, hz]
  · intro hsum
    rw [hsum, Nat.mod_self]

theorem c7_navigation_wraparound_witness :
    (App.new [Source.Git ⟨"."⟩]).handle_key_events
        ⟨KeyCode.Down, ⟨false, false, false⟩, KeyEventKind.Press⟩ =
      .ok { App.new [Source.Git ⟨"."⟩] with
        happiness := .Undecided,
        selected := ((App.new [Source.Git ⟨"."⟩]).selected + 1) %
          (App.new [Source.Git ⟨"."⟩]).sources.length,
        events := (App.new [Source.Git ⟨"."⟩]).events.restart } :=
  (c7_navigation_wraparound (App.new [Source.Git ⟨"."⟩])
    ⟨KeyCode.Down, ⟨false, false, false⟩, KeyEventKind.Press⟩ (by decide)).1
    rfl rfl

/-- C9: an animation tick only advances the frame counter: Happiness, the
source list, the selection, the running flag and the event handler are all
unchanged, and the counter wraps by 2^64 (`usize::wrapping_add`). -/
theorem c9_animation_tick_frame_only (st : App) :
    st.animation_tick.happiness = st.happiness ∧
    st.animation_tick.sources = st.sources ∧
    st.animation_tick.selected = st.selected ∧
    st.animation_tick.running = st.running ∧
    st.animation_tick.events = st.events ∧
    st.animation_tick.animation = (st.animation + 1) % 2 ^ 64 :=
  ⟨rfl, rfl, rfl, rfl, rfl, rfl⟩
